import Mathlib

/-!
Verification of the snake-puzzle solver (snake_puzzle.py).

The program searches, by depth-first backtracking, for a chain of
axis-aligned segments that snakes through a cube of side `SIZE`.  This file
is a shallow embedding of the program:

* `get_coords`, `are_coords_invalid`, `crosses_occupied_block`,
  `get_cube_state`, `solve` and the constants `SEGMENT_LENGTHS`, `DIRECTIONS`,
  `SIZE` keep the source's names.
* The module-level constant `SIZE` (computed once, at import time, from the
  compiled-in `SEGMENT_LENGTHS`) becomes an explicit `size` parameter of
  every function that reads it.
* `Segment.is_valid` both decides validity and, through mutation of
  `next_segment`, assembles the successful chain; its embedding `find_chain`
  (the specification's name for it) returns the assembled chain directly as
  an `Option Chain`.
* The occupancy cube, a nested tuple of `0`/`1` entries in the source, is
  embedded as a total function `Coords → Nat`.  The two views agree on every
  index in `[0, size)`; the theorems about reachable search states show that
  those are the only indices the search ever reads or writes.
* The program's exception paths are modelled explicitly: `py_index` and
  `py_cube_read` give Python's subscript semantics (wrap-around for negative
  in-range indices, `IndexError` — as `none` — otherwise),
  `crosses_occupied_block_py` is the overlap scan under those semantics, and
  `solve_py` records the uncaught `IndexError` that `segment_lengths[0]`
  raises on an empty input.
-/

/-- Axis of a direction: the letter (`x`, `y` or `z`) in the direction's
two-character key. -/
inductive Axis where
  | x
  | y
  | z
deriving DecidableEq

/-- The six direction keys `'+x', '-x', '+y', '-y', '+z', '-z'` of the
`DIRECTIONS` dict (its values, the display names, are only used for
formatting output and are out of scope). -/
inductive Dir where
  | px
  | mx
  | py
  | my
  | pz
  | mz
deriving DecidableEq, Fintype

/-- Iteration over the `DIRECTIONS` dict yields its keys in insertion
order: `'+x', '-x', '+y', '-y', '+z', '-z'`. -/
def DIRECTIONS : List Dir := [.px, .mx, .py, .my, .pz, .mz]

/-- Axis letter of a direction key (`direction[1]` in the source). -/
def Dir.axis : Dir → Axis
  | .px => .x
  | .mx => .x
  | .py => .y
  | .my => .y
  | .pz => .z
  | .mz => .z

/-- Opposite direction: same axis, opposite sign (the specification's
notion; the source expresses it through the axis letter of the key). -/
def Dir.opposite : Dir → Dir
  | .px => .mx
  | .mx => .px
  | .py => .my
  | .my => .py
  | .pz => .mz
  | .mz => .pz

/-- The namedtuple `Coords = namedtuple('Coords', 'x y z')`.  Components are
Python ints, i.e. unbounded integers. -/
structure Coords where
  x : Int
  y : Int
  z : Int
deriving DecidableEq

/-- Occupancy cube.  In the source a nested tuple indexed as
`cube[x][y][z]` with `0`/`1` entries; embedded as a total function on
coordinates (see the header note on agreement with the source).  The
source's actual indexing semantics — wrap-around for negative in-range
indices, `IndexError` otherwise — is modelled separately by
`py_cube_read`, and the reachable-state theorems show all reads the
search itself performs are plain in-bounds reads, where the two views
agree. -/
def Cube := Coords → Nat

/-- The all-unoccupied cube `(((0,) * SIZE,) * SIZE,) * SIZE` built by
`solve`. -/
def empty_cube : Cube := fun _ => 0

/-- Embedding of `get_coords(coords, direction, distance)`: the point from `coords` in
`direction` at `distance`. -/
def get_coords (coords : Coords) (direction : Dir) (distance : Int) : Coords :=
  match direction with
  | .px => ⟨coords.x + distance, coords.y, coords.z⟩
  | .mx => ⟨coords.x - distance, coords.y, coords.z⟩
  | .py => ⟨coords.x, coords.y + distance, coords.z⟩
  | .my => ⟨coords.x, coords.y - distance, coords.z⟩
  | .pz => ⟨coords.x, coords.y, coords.z + distance⟩
  | .mz => ⟨coords.x, coords.y, coords.z - distance⟩

/-- Embedding of `are_coords_invalid(coords)`: whether some component is `< 0` or
`>= SIZE` (checked for `x`, then `y`, then `z`). -/
def are_coords_invalid (size : Nat) (coords : Coords) : Bool :=
  (decide (coords.x < 0) || decide ((size : Int) ≤ coords.x)) ||
  (decide (coords.y < 0) || decide ((size : Int) ≤ coords.y)) ||
  (decide (coords.z < 0) || decide ((size : Int) ≤ coords.z))

/-- The `length` cells a segment covers: cell `i` is `get_coords coords
direction i` for `i = 0, …, length - 1`.  These are exactly the indices
`crosses_occupied_block` reads and `get_cube_state` marks, which the source
spells out per direction. -/
def segment_cells (coords : Coords) (direction : Dir) (length : Nat) : List Coords :=
  (List.range length).map fun i : Nat => get_coords coords direction (i : Int)

/-- Embedding of `crosses_occupied_block(cube, segment)`: the sum, over
`i in range(segment.length)`, of the cube entry at the segment's `i`-th
cell (one branch per direction in the source).  The caller tests this sum
for truthiness, i.e. for being nonzero. -/
def crosses_occupied_block (cube : Cube) (coords : Coords) (direction : Dir)
    (length : Nat) : Nat :=
  match direction with
  | .px => ((List.range length).map fun i : Nat => cube ⟨coords.x + i, coords.y, coords.z⟩).sum
  | .mx => ((List.range length).map fun i : Nat => cube ⟨coords.x - i, coords.y, coords.z⟩).sum
  | .py => ((List.range length).map fun i : Nat => cube ⟨coords.x, coords.y + i, coords.z⟩).sum
  | .my => ((List.range length).map fun i : Nat => cube ⟨coords.x, coords.y - i, coords.z⟩).sum
  | .pz => ((List.range length).map fun i : Nat => cube ⟨coords.x, coords.y, coords.z + i⟩).sum
  | .mz => ((List.range length).map fun i : Nat => cube ⟨coords.x, coords.y, coords.z - i⟩).sum

/-- The helper cube `segment_cube` built inside `get_cube_state`: `1` at
each of the segment's `length` cells (set one per loop iteration, one
branch per direction in the source), `0` elsewhere. -/
def segment_cube (coords : Coords) (direction : Dir) (length : Nat) : Cube :=
  fun c => if c ∈ segment_cells coords direction length then 1 else 0

/-- Embedding of `get_cube_state(initial_cube, segment)`: the element-wise sum of
`initial_cube` and `segment_cube`.  The source builds a fresh nested tuple
and never assigns into `initial_cube`; the embedding is accordingly a pure
function of it. -/
def get_cube_state (initial_cube : Cube) (coords : Coords) (direction : Dir)
    (length : Nat) : Cube :=
  fun c => initial_cube c + segment_cube coords direction length c

/-- Embedding of `Segment._possible_directions_gen` (`candidate_next_directions` in the
specification): the directions `d` of `DIRECTIONS`, in order, whose key
does not contain this segment's axis letter (`self.direction[1] not in d`),
i.e. the directions on a different axis. -/
def possible_directions (direction : Dir) : List Dir :=
  DIRECTIONS.filter fun d => decide (d.axis ≠ direction.axis)

/-- The chain of segments assembled by the search: `Segment` restricted to
the fields that survive in the result (`coords`, `length`, `direction`, and
the optional `next_segment`; `initial_cube` and `segment_lengths` are
search-time parameters, which `find_chain` takes as arguments). -/
inductive Chain where
  | node (coords : Coords) (length : Nat) (direction : Dir) (next : Option Chain)

/-- Direction of a chain's first segment. -/
def Chain.direction : Chain → Dir
  | .node _ _ direction _ => direction

/-- Lengths of a chain's segments, first to last. -/
def Chain.lengthsList : Chain → List Nat
  | .node _ length _ none => [length]
  | .node _ length _ (some next) => length :: next.lengthsList

/-- All cells covered by a chain's segments, first segment first. -/
def Chain.cells : Chain → List Coords
  | .node coords length direction none => segment_cells coords direction length
  | .node coords length direction (some next) =>
      segment_cells coords direction length ++ next.cells

/-- Every joint of the chain is a genuine turn: each next segment's
direction is neither the previous segment's direction nor its opposite. -/
def Chain.turns_ok : Chain → Prop
  | .node _ _ _ none => True
  | .node _ _ direction (some next) =>
      (next.direction ≠ direction ∧ next.direction ≠ direction.opposite) ∧ next.turns_ok

/-- Embedding of `Segment.is_valid` (the specification's `find_chain`), returning the
assembled chain instead of signalling through mutation of `next_segment`:

1. reject if the end coordinate (`length - 1` steps from `coords`) is out
   of bounds; 2. reject if the segment crosses an occupied block; 3. if no
   segment lengths remain, succeed with a terminal node; 4. otherwise mark
   the segment and try each candidate next direction in order, skipping
   next starts that are out of bounds, returning the first success. -/
def find_chain (size : Nat) (coords : Coords) (length : Nat) (direction : Dir)
    (initial_cube : Cube) (segment_lengths : List Nat) : Option Chain :=
  let end_coords := get_coords coords direction ((length : Int) - 1)
  if are_coords_invalid size end_coords then none
  else if crosses_occupied_block initial_cube coords direction length != 0 then none
  else
    match segment_lengths with
    | [] => some (Chain.node coords length direction none)
    | segment_length :: next_segment_lengths =>
      let cube := get_cube_state initial_cube coords direction length
      (possible_directions direction).findSome? fun d =>
        let start_coords := get_coords end_coords d 1
        if are_coords_invalid size start_coords then none
        else
          (find_chain size start_coords segment_length d cube next_segment_lengths).map
            fun next => Chain.node coords length direction (some next)

/-- Embedding of `solve(segment_lengths)`: scan every coordinate (`x` outer, `y`, `z`
inner, each ascending over `range(SIZE)`) and every direction in
`DIRECTIONS` order, and return the first chain found; `none` models the
`'No solution'` return.  (On an empty length list the source raises an
uncaught `IndexError` at `segment_lengths[0]`: that error path is modelled
by `solve_py`, and the theorems about `solve` itself concern non-empty
inputs; the `none` returned here for `[]` is never relied upon.) -/
def solve (size : Nat) (segment_lengths : List Nat) : Option Chain :=
  match segment_lengths with
  | [] => none
  | segment_length :: next_segment_lengths =>
    (List.range size).findSome? fun x : Nat =>
      (List.range size).findSome? fun y : Nat =>
        (List.range size).findSome? fun z : Nat =>
          DIRECTIONS.findSome? fun direction =>
            find_chain size ⟨(x : Int), (y : Int), (z : Int)⟩ segment_length
              direction empty_cube next_segment_lengths

/-- The compiled-in puzzle input. -/
def SEGMENT_LENGTHS : List Nat :=
  [3, 3, 3, 3, 1, 3, 1, 3, 1, 1, 1, 1, 1, 1, 1, 1, 1, 2, 1, 3, 2, 2, 1, 3, 1,
   2, 1, 1, 1, 1, 1, 2, 1, 1, 1, 1, 3, 1, 3]

/-- Embedding of `SIZE = round(sum(SEGMENT_LENGTHS) ** (1.0 / 3))`: the sum is `64`, a
perfect cube, so the rounded floating-point cube root is exactly `4`. -/
def SIZE : Nat := 4

/-- Fuel-indexed variant of `find_chain`: the same body, but recursing on
an explicit depth budget instead of on the remaining-lengths list.  Used to
show that the recursion depth of the search is bounded by the number of
remaining segment lengths. -/
def find_chain_fuel : Nat → Nat → Coords → Nat → Dir → Cube → List Nat → Option Chain
  | 0, _, _, _, _, _, _ => none
  | fuel + 1, size, coords, length, direction, initial_cube, segment_lengths =>
    let end_coords := get_coords coords direction ((length : Int) - 1)
    if are_coords_invalid size end_coords then none
    else if crosses_occupied_block initial_cube coords direction length != 0 then none
    else
      match segment_lengths with
      | [] => some (Chain.node coords length direction none)
      | segment_length :: next_segment_lengths =>
        let cube := get_cube_state initial_cube coords direction length
        (possible_directions direction).findSome? fun d =>
          let start_coords := get_coords end_coords d 1
          if are_coords_invalid size start_coords then none
          else
            (find_chain_fuel fuel size start_coords segment_length d cube
                next_segment_lengths).map
              fun next => Chain.node coords length direction (some next)

/-- Argument tuple of one `is_valid` invocation: the fields of the
`Segment` object it runs on. -/
structure CallArgs where
  coords : Coords
  length : Nat
  direction : Dir
  initial_cube : Cube
  segment_lengths : List Nat

/-- End coordinate of a call's segment (`end_coords` in `is_valid`). -/
def CallArgs.end_coords (a : CallArgs) : Coords :=
  get_coords a.coords a.direction ((a.length : Int) - 1)

/-- The `is_valid` invocations reachable from `solve size lengths0`, paired
with the list of segment lengths already placed in the call's cube.
`init` is the call `solve` makes for each scan coordinate and direction
(on the all-unoccupied cube, with nothing placed yet); `step` is the
recursive call `is_valid` makes after its own guards pass (end in bounds,
no overlap, lengths remaining), for a candidate next direction whose next
start coordinate passed the in-bounds check. -/
inductive Reaches (size : Nat) (lengths0 : List Nat) : CallArgs → List Nat → Prop
  | init (x y z : Nat) (hx : x < size) (hy : y < size) (hz : z < size)
      (d : Dir) (hd : d ∈ DIRECTIONS) (l : Nat) (rest : List Nat)
      (hl : lengths0 = l :: rest) :
      Reaches size lengths0 ⟨⟨(x : Int), (y : Int), (z : Int)⟩, l, d, empty_cube, rest⟩ []
  | step (a : CallArgs) (placed : List Nat) (h : Reaches size lengths0 a placed)
      (hend : are_coords_invalid size a.end_coords = false)
      (hcross : crosses_occupied_block a.initial_cube a.coords a.direction a.length = 0)
      (l : Nat) (rest : List Nat) (hl : a.segment_lengths = l :: rest)
      (d : Dir) (hd : d ∈ possible_directions a.direction)
      (hstart : are_coords_invalid size (get_coords a.end_coords d 1) = false) :
      Reaches size lengths0
        ⟨get_coords a.end_coords d 1, l, d,
          get_cube_state a.initial_cube a.coords a.direction a.length, rest⟩
        (placed ++ [a.length])

/-- The cube's cell grid `[0, size)^3` as a finite set of coordinates. -/
def grid_finset (size : Nat) : Finset Coords :=
  (Finset.range size ×ˢ Finset.range size ×ˢ Finset.range size).image
    fun p => ⟨(p.1 : Int), (p.2.1 : Int), (p.2.2 : Int)⟩

/-- Number of occupied (nonzero) cells of a cube. -/
def occupied_count (size : Nat) (cube : Cube) : Nat :=
  ((grid_finset size).filter fun c => cube c ≠ 0).card

/-- The chain found by `solve 2 [2, 1, 1, 1, 1, 1, 1]` (the specification's
solvable `2 × 2 × 2` scenario), used as a concrete solved instance. -/
def solved_chain_2 : Chain :=
  .node ⟨0, 0, 0⟩ 2 .px (some (.node ⟨1, 1, 0⟩ 1 .py (some (.node ⟨0, 1, 0⟩ 1 .mx
    (some (.node ⟨0, 1, 1⟩ 1 .pz (some (.node ⟨1, 1, 1⟩ 1 .px (some (.node ⟨1, 0, 1⟩ 1 .my
    (some (.node ⟨0, 0, 1⟩ 1 .mx none))))))))))))

/-- Python subscripting `t[i]` on a tuple (or list) of length `size`: an
index in `[0, size)` is read directly, an index in `[-size, 0)` wraps
around to `i + size`, and any other index raises `IndexError`, modelled as
`none`. -/
def py_index (size : Nat) (i : Int) : Option Int :=
  if 0 ≤ i ∧ i < (size : Int) then some i
  else if -(size : Int) ≤ i ∧ i < 0 then some (i + size)
  else none

/-- One occupancy read `cube[x][y][z]` with the source's actual indexing
semantics: each of the three subscripts may wrap around or raise
`IndexError` (`none`); a successful read returns the entry at the
effective (possibly wrapped) indices. -/
def py_cube_read (size : Nat) (cube : Cube) (c : Coords) : Option Nat :=
  match py_index size c.x, py_index size c.y, py_index size c.z with
  | some x, some y, some z => some (cube ⟨x, y, z⟩)
  | _, _, _ => none

/-- Sum of occupancy reads over a list of cells, with the first
`IndexError` propagating — the evaluation of
`sum(cube[...] for i in range(length))` in the source. -/
def sum_reads (size : Nat) (cube : Cube) : List Coords → Option Nat
  | [] => some 0
  | c :: cs =>
    match py_cube_read size cube c, sum_reads size cube cs with
    | some v, some s => some (v + s)
    | _, _ => none

/-- Exception-aware `crosses_occupied_block`: the per-direction branches of
the source index exactly the segment's cells (`crosses_eq_sum`), so the
overlap sum reads those cells in order under Python indexing semantics,
raising `IndexError` (`none`) at the first out-of-range subscript. -/
def crosses_occupied_block_py (size : Nat) (cube : Cube) (coords : Coords)
    (direction : Dir) (length : Nat) : Option Nat :=
  sum_reads size cube (segment_cells coords direction length)

/-- Exception-aware entry point: on an empty input the source raises an
uncaught `IndexError` at `segment_lengths[0]` before any search happens
(`none`); on a non-empty input the subscripts succeed and the search runs
as `solve` (its reachable occupancy reads are all plain in-bounds reads —
claims C9/C10 — so no further exception can arise). -/
def solve_py (size : Nat) (segment_lengths : List Nat) : Option (Option Chain) :=
  match segment_lengths with
  | [] => none
  | segment_length :: next_segment_lengths =>
    some (solve size (segment_length :: next_segment_lengths))

theorem SEGMENT_LENGTHS_sum : SEGMENT_LENGTHS.sum = SIZE ^ 3 := by decide

/-! ### Geometry lemmas -/

/-- Unfolding of the bounds check into the component inequalities. -/
theorem are_coords_invalid_false_iff (size : Nat) (c : Coords) :
    are_coords_invalid size c = false ↔
      0 ≤ c.x ∧ c.x < (size : Int) ∧ 0 ≤ c.y ∧ c.y < (size : Int) ∧
      0 ≤ c.z ∧ c.z < (size : Int) := by
  simp [are_coords_invalid]
  omega

/-- Membership in a segment's cell list. -/
theorem mem_segment_cells_iff (coords : Coords) (direction : Dir) (length : Nat)
    (c : Coords) :
    c ∈ segment_cells coords direction length ↔
      ∃ i : Nat, i < length ∧ c = get_coords coords direction (i : Int) := by
  simp only [segment_cells, List.mem_map, List.mem_range]
  constructor
  · rintro ⟨i, hi, rfl⟩
    exact ⟨i, hi, rfl⟩
  · rintro ⟨i, hi, rfl⟩
    exact ⟨i, hi, rfl⟩

/-- A segment whose start and end are both in bounds lies entirely in
bounds: each intermediate cell's moving component is between the start's
and the end's. -/
theorem segment_cells_valid (size : Nat) (coords : Coords) (direction : Dir)
    (length : Nat)
    (hs : are_coords_invalid size coords = false)
    (he : are_coords_invalid size (get_coords coords direction ((length : Int) - 1)) = false) :
    ∀ c ∈ segment_cells coords direction length, are_coords_invalid size c = false := by
  intro c hc
  rw [mem_segment_cells_iff] at hc
  obtain ⟨i, hi, rfl⟩ := hc
  rw [are_coords_invalid_false_iff] at hs he ⊢
  cases direction <;> simp [get_coords] at he ⊢ <;> omega

/-- The cells of a segment are pairwise distinct: the moving component is
injective in the step index. -/
theorem segment_cells_nodup (coords : Coords) (direction : Dir) (length : Nat) :
    (segment_cells coords direction length).Nodup := by
  have hinj : Function.Injective fun i : Nat => get_coords coords direction (i : Int) := by
    intro i j hij
    cases direction <;> simp [get_coords, Coords.mk.injEq] at hij <;> omega
  rw [segment_cells]
  exact (List.nodup_range length).map hinj

/-- Bridging lemma: `crosses_occupied_block` is the sum of the cube's entries over the
segment's cells (each per-direction branch indexes exactly those cells). -/
theorem crosses_eq_sum (cube : Cube) (coords : Coords) (direction : Dir)
    (length : Nat) :
    crosses_occupied_block cube coords direction length =
      ((segment_cells coords direction length).map cube).sum := by
  cases direction <;>
    simp [crosses_occupied_block, segment_cells, List.map_map, Function.comp_def, get_coords]

/-- The overlap test passes (sum is zero) iff every cell of the segment is
unoccupied. -/
theorem crosses_zero_iff (cube : Cube) (coords : Coords) (direction : Dir)
    (length : Nat) :
    crosses_occupied_block cube coords direction length = 0 ↔
      ∀ c ∈ segment_cells coords direction length, cube c = 0 := by
  rw [crosses_eq_sum, List.sum_eq_zero_iff]
  simp

/-- Occupancy after `get_cube_state`: a cell is unoccupied in the new cube
iff it was unoccupied before and is not one of the segment's cells. -/
theorem get_cube_state_zero_iff (cube : Cube) (coords : Coords) (direction : Dir)
    (length : Nat) (c : Coords) :
    get_cube_state cube coords direction length c = 0 ↔
      cube c = 0 ∧ c ∉ segment_cells coords direction length := by
  by_cases hc : c ∈ segment_cells coords direction length <;>
    simp [get_cube_state, segment_cube, hc]

/-- A cell outside the segment keeps its exact occupancy value. -/
theorem get_cube_state_frame (cube : Cube) (coords : Coords) (direction : Dir)
    (length : Nat) (c : Coords)
    (hc : c ∉ segment_cells coords direction length) :
    get_cube_state cube coords direction length c = cube c := by
  simp [get_cube_state, segment_cube, hc]

/-- Membership in the candidate-next-direction list is exactly being on a
different axis (and every such direction is listed). -/
theorem mem_possible_directions_iff (direction d : Dir) :
    d ∈ possible_directions direction ↔ d.axis ≠ direction.axis := by
  revert d direction
  decide

/-- A direction on a different axis is neither the direction itself nor its
opposite, and conversely. -/
theorem axis_ne_iff (direction d : Dir) :
    d.axis ≠ direction.axis ↔ d ≠ direction ∧ d ≠ direction.opposite := by
  revert d direction
  decide

/-- Extraction principle for `List.findSome?`: a successful scan comes from
some member of the list. -/
theorem findSome?_eq_some {α β : Type} {f : α → Option β} {l : List α} {b : β}
    (h : l.findSome? f = some b) : ∃ a ∈ l, f a = some b := by
  induction l with
  | nil => simp [List.findSome?] at h
  | cons a as ih =>
    rw [List.findSome?] at h
    cases hfa : f a with
    | some b' =>
      rw [hfa] at h
      exact ⟨a, by simp, by simpa [hfa] using h⟩
    | none =>
      rw [hfa] at h
      obtain ⟨a', ha', hfa'⟩ := ih h
      exact ⟨a', by simp [ha'], hfa'⟩

/-! ### Soundness of the search -/

/-- Soundness of a successful `find_chain` call whose start coordinate is
in bounds: the returned chain consumes this segment's length followed by
exactly the remaining lengths, starts in the given direction, turns at
every joint, and covers pairwise-distinct, in-bounds cells that were all
unoccupied in the cube the call was given. -/
theorem find_chain_sound (size : Nat) :
    ∀ (segment_lengths : List Nat) (coords : Coords) (length : Nat) (direction : Dir)
      (cube : Cube) (ch : Chain),
      are_coords_invalid size coords = false →
      find_chain size coords length direction cube segment_lengths = some ch →
      ch.lengthsList = length :: segment_lengths ∧
      ch.direction = direction ∧
      ch.turns_ok ∧
      ch.cells.Nodup ∧
      (∀ c ∈ ch.cells, are_coords_invalid size c = false) ∧
      (∀ c ∈ ch.cells, cube c = 0) := by
  intro segment_lengths
  induction segment_lengths with
  | nil =>
    intro coords length direction cube ch hs h
    rw [find_chain] at h
    split at h
    · exact absurd h (by simp)
    · split at h
      · exact absurd h (by simp)
      · rename_i hend hcross
        rw [Option.some_inj] at h
        subst h
        rw [Bool.not_eq_true] at hend
        simp only [bne_iff_ne, ne_eq, not_not] at hcross
        refine ⟨rfl, rfl, trivial, ?_, ?_, ?_⟩
        · exact segment_cells_nodup coords direction length
        · exact segment_cells_valid size coords direction length hs hend
        · exact (crosses_zero_iff cube coords direction length).mp hcross
  | cons seg_len rest ih =>
    intro coords length direction cube ch hs h
    rw [find_chain] at h
    split at h
    · exact absurd h (by simp)
    · split at h
      · exact absurd h (by simp)
      · rename_i hend hcross
        rw [Bool.not_eq_true] at hend
        simp only [bne_iff_ne, ne_eq, not_not] at hcross
        obtain ⟨d, hd, hfd⟩ := findSome?_eq_some h
        dsimp only at hfd
        split at hfd
        · exact absurd hfd (by simp)
        · rename_i hstart
          rw [Bool.not_eq_true] at hstart
          rw [Option.map_eq_some'] at hfd
          obtain ⟨next, hnext, hch⟩ := hfd
          subst hch
          obtain ⟨hlen, hdir, hturns, hnodup, hvalid, hzero⟩ :=
            ih _ seg_len d _ next hstart hnext
          have hseg_valid :=
            segment_cells_valid size coords direction length hs hend
          have hseg_zero :=
            (crosses_zero_iff cube coords direction length).mp hcross
          have hnext_zero : ∀ c ∈ next.cells,
              cube c = 0 ∧ c ∉ segment_cells coords direction length := by
            intro c hc
            exact (get_cube_state_zero_iff cube coords direction length c).mp (hzero c hc)
          refine ⟨?_, rfl, ?_, ?_, ?_, ?_⟩
          · simp [Chain.lengthsList, hlen]
          · refine ⟨?_, hturns⟩
            rw [hdir]
            exact (axis_ne_iff direction d).mp ((mem_possible_directions_iff direction d).mp hd)
          · rw [Chain.cells, List.nodup_append]
            refine ⟨segment_cells_nodup coords direction length, hnodup, ?_⟩
            intro c hc hc'
            exact (hnext_zero c hc').2 hc
          · intro c hc
            rw [Chain.cells, List.mem_append] at hc
            rcases hc with hc | hc
            · exact hseg_valid c hc
            · exact hvalid c hc
          · intro c hc
            rw [Chain.cells, List.mem_append] at hc
            rcases hc with hc | hc
            · exact hseg_zero c hc
            · exact (hnext_zero c hc).1

/-! ### Occupancy counting -/

/-- Membership in the grid is exactly passing the bounds check. -/
theorem mem_grid_finset (size : Nat) (c : Coords) :
    c ∈ grid_finset size ↔ are_coords_invalid size c = false := by
  obtain ⟨cx, cy, cz⟩ := c
  rw [are_coords_invalid_false_iff]
  simp only [grid_finset, Finset.mem_image, Finset.mem_product, Finset.mem_range,
    Prod.exists]
  constructor
  · rintro ⟨x, y, z, ⟨hx, hy, hz⟩, h⟩
    rw [Coords.mk.injEq] at h
    obtain ⟨h1, h2, h3⟩ := h
    omega
  · rintro ⟨h1, h2, h3, h4, h5, h6⟩
    refine ⟨cx.toNat, cy.toNat, cz.toNat, ⟨by omega, by omega, by omega⟩, ?_⟩
    rw [Coords.mk.injEq]
    refine ⟨by omega, by omega, by omega⟩

/-- A cube never has more occupied cells than the grid has cells. -/
theorem occupied_count_le (size : Nat) (cube : Cube) :
    occupied_count size cube ≤ size ^ 3 := by
  calc ((grid_finset size).filter fun c => cube c ≠ 0).card
      ≤ (grid_finset size).card := Finset.card_filter_le _ _
    _ ≤ (Finset.range size ×ˢ Finset.range size ×ˢ Finset.range size).card :=
        Finset.card_image_le
    _ = size ^ 3 := by
        simp [Finset.card_product]
        ring

/-- Marking an in-bounds, previously unoccupied segment adds exactly its
`length` cells to the occupied count. -/
theorem occupied_count_get_cube_state (size : Nat) (cube : Cube) (coords : Coords)
    (direction : Dir) (length : Nat)
    (hin : ∀ c ∈ segment_cells coords direction length, are_coords_invalid size c = false)
    (hfree : ∀ c ∈ segment_cells coords direction length, cube c = 0) :
    occupied_count size (get_cube_state cube coords direction length) =
      occupied_count size cube + length := by
  have hunion :
      ((grid_finset size).filter fun c => get_cube_state cube coords direction length c ≠ 0) =
        ((grid_finset size).filter fun c => cube c ≠ 0) ∪
          (segment_cells coords direction length).toFinset := by
    ext c
    simp only [Finset.mem_filter, Finset.mem_union, List.mem_toFinset]
    constructor
    · rintro ⟨hg, hnz⟩
      rcases not_and_or.mp ((get_cube_state_zero_iff cube coords direction length c).not.mp hnz)
        with hnz' | hmem
      · exact Or.inl ⟨hg, hnz'⟩
      · exact Or.inr (not_not.mp hmem)
    · rintro (⟨hg, hnz⟩ | hmem)
      · refine ⟨hg, fun h0 => hnz ?_⟩
        exact ((get_cube_state_zero_iff cube coords direction length c).mp h0).1
      · refine ⟨(mem_grid_finset size c).mpr (hin c hmem), fun h0 => ?_⟩
        exact ((get_cube_state_zero_iff cube coords direction length c).mp h0).2 hmem
  have hdisj :
      Disjoint ((grid_finset size).filter fun c => cube c ≠ 0)
        (segment_cells coords direction length).toFinset := by
    rw [Finset.disjoint_left]
    intro c hc hmem
    rw [List.mem_toFinset] at hmem
    exact (Finset.mem_filter.mp hc).2 (hfree c hmem)
  rw [occupied_count, hunion, Finset.card_union_of_disjoint hdisj]
  congr 1
  rw [List.toFinset_card_of_nodup (segment_cells_nodup coords direction length)]
  simp [segment_cells]

/-! ### Reachable-state invariants -/

/-- Every invocation reachable from `solve` has an in-bounds start: the
scan coordinates are in `[0, size)^3`, and the recursion checks each next
start before recursing. -/
theorem reaches_start_valid (size : Nat) (lengths0 : List Nat) (a : CallArgs)
    (placed : List Nat) (h : Reaches size lengths0 a placed) :
    are_coords_invalid size a.coords = false := by
  induction h with
  | init x y z hx hy hz d hd l rest hl =>
    rw [are_coords_invalid_false_iff]
    simp
    omega
  | step a placed h hend hcross l rest hl d hd hstart ih =>
    exact hstart

/-- The cube of every reachable invocation has exactly one occupied cell
per unit of length placed so far. -/
theorem reaches_occupied_count (size : Nat) (lengths0 : List Nat) (a : CallArgs)
    (placed : List Nat) (h : Reaches size lengths0 a placed) :
    occupied_count size a.initial_cube = placed.sum := by
  induction h with
  | init x y z hx hy hz d hd l rest hl =>
    have : ((grid_finset size).filter fun c => empty_cube c ≠ 0) = ∅ := by
      apply Finset.filter_eq_empty_iff.mpr
      intro c _
      simp [empty_cube]
    simp [occupied_count, this]
  | step a placed h hend hcross l rest hl d hd hstart ih =>
    have hs := reaches_start_valid size lengths0 a placed h
    have hin := segment_cells_valid size a.coords a.direction a.length hs hend
    have hfree := (crosses_zero_iff a.initial_cube a.coords a.direction a.length).mp hcross
    show occupied_count size (get_cube_state a.initial_cube a.coords a.direction a.length) = _
    rw [occupied_count_get_cube_state size a.initial_cube a.coords a.direction a.length
      hin hfree, ih, List.sum_append]
    simp

/-! ### Bounded recursion depth -/

/-- Congruence for `List.findSome?` under pointwise equal scan functions. -/
theorem findSome?_congr {α β : Type} {f g : α → Option β} (l : List α)
    (h : ∀ a ∈ l, f a = g a) : l.findSome? f = l.findSome? g := by
  induction l with
  | nil => rfl
  | cons a as ih =>
    rw [List.findSome?, List.findSome?, h a (by simp)]
    cases g a with
    | some b => rfl
    | none => exact ih fun a' ha' => h a' (by simp [ha'])

/-- With fuel exceeding the number of remaining lengths, the fuel-indexed
search agrees with `find_chain`: the recursion depth is bounded by the
number of segments left to place. -/
theorem find_chain_fuel_spec (fuel : Nat) :
    ∀ (size : Nat) (coords : Coords) (length : Nat) (direction : Dir)
      (cube : Cube) (segment_lengths : List Nat),
      segment_lengths.length < fuel →
      find_chain_fuel fuel size coords length direction cube segment_lengths =
        find_chain size coords length direction cube segment_lengths := by
  induction fuel with
  | zero =>
    intro size coords length direction cube segment_lengths h
    exact absurd h (by omega)
  | succ fuel ih =>
    intro size coords length direction cube segment_lengths h
    cases segment_lengths with
    | nil => rfl
    | cons seg_len rest =>
      rw [find_chain_fuel.eq_def, find_chain]
      dsimp only
      split
      · rfl
      · split
        · rfl
        · refine findSome?_congr _ fun d hd => ?_
          dsimp only
          split
          · rfl
          · rw [ih size _ seg_len d _ rest (by simpa using Nat.lt_of_succ_lt_succ h)]

/-! ### From solve to find_chain -/

/-- Scan coordinates are in bounds. -/
theorem scan_coords_valid (size x y z : Nat) (hx : x < size) (hy : y < size)
    (hz : z < size) :
    are_coords_invalid size ⟨(x : Int), (y : Int), (z : Int)⟩ = false := by
  rw [are_coords_invalid_false_iff]
  simp
  omega

/-- A successful `solve` comes from a successful `find_chain` on some scan
coordinate (in bounds) and some direction, with the first length split off. -/
theorem solve_eq_some (size : Nat) (segment_lengths : List Nat) (ch : Chain)
    (h : solve size segment_lengths = some ch) :
    ∃ (l : Nat) (rest : List Nat) (x y z : Nat) (d : Dir),
      segment_lengths = l :: rest ∧ x < size ∧ y < size ∧ z < size ∧
      d ∈ DIRECTIONS ∧
      find_chain size ⟨(x : Int), (y : Int), (z : Int)⟩ l d empty_cube rest = some ch := by
  match segment_lengths with
  | [] => simp [solve] at h
  | l :: rest =>
    rw [solve] at h
    obtain ⟨x, hx, h⟩ := findSome?_eq_some h
    obtain ⟨y, hy, h⟩ := findSome?_eq_some h
    obtain ⟨z, hz, h⟩ := findSome?_eq_some h
    obtain ⟨d, hd, h⟩ := findSome?_eq_some h
    exact ⟨l, rest, x, y, z, d, rfl, List.mem_range.mp hx, List.mem_range.mp hy,
      List.mem_range.mp hz, hd, h⟩

/-- Soundness of `solve`: a returned chain consumes exactly the input
lengths, turns at every joint, and covers pairwise-distinct in-bounds
cells. -/
theorem solve_sound (size : Nat) (segment_lengths : List Nat) (ch : Chain)
    (h : solve size segment_lengths = some ch) :
    ch.lengthsList = segment_lengths ∧ ch.turns_ok ∧ ch.cells.Nodup ∧
    ∀ c ∈ ch.cells, are_coords_invalid size c = false := by
  obtain ⟨l, rest, x, y, z, d, hseg, hx, hy, hz, hd, hfc⟩ :=
    solve_eq_some size segment_lengths ch h
  obtain ⟨hlen, _, hturns, hnodup, hvalid, _⟩ :=
    find_chain_sound size rest _ l d empty_cube ch (scan_coords_valid size x y z hx hy hz) hfc
  exact ⟨by rw [hlen, hseg], hturns, hnodup, hvalid⟩

/-! ### Exception-aware reads on in-bounds cells -/

/-- An in-bounds subscript is read directly, with no wrap-around and no
`IndexError`. -/
theorem py_index_of_inbounds (size : Nat) (i : Int) (h0 : 0 ≤ i)
    (h1 : i < (size : Int)) : py_index size i = some i := by
  rw [py_index, if_pos ⟨h0, h1⟩]

/-- An occupancy read at an in-bounds cell succeeds and agrees with the
total-function view of the cube. -/
theorem py_cube_read_of_valid (size : Nat) (cube : Cube) (c : Coords)
    (h : are_coords_invalid size c = false) :
    py_cube_read size cube c = some (cube c) := by
  obtain ⟨h1, h2, h3, h4, h5, h6⟩ := (are_coords_invalid_false_iff size c).mp h
  rw [py_cube_read, py_index_of_inbounds size c.x h1 h2,
    py_index_of_inbounds size c.y h3 h4, py_index_of_inbounds size c.z h5 h6]

/-- Summing reads over in-bounds cells raises nothing and agrees with the
total-function sum. -/
theorem sum_reads_of_valid (size : Nat) (cube : Cube) :
    ∀ cells : List Coords, (∀ c ∈ cells, are_coords_invalid size c = false) →
      sum_reads size cube cells = some ((cells.map cube).sum) := by
  intro cells
  induction cells with
  | nil => intro _; rfl
  | cons c cs ih =>
    intro h
    rw [sum_reads, py_cube_read_of_valid size cube c (h c (by simp)),
      ih fun c' hc' => h c' (by simp [hc'])]
    simp

/-- For a segment whose cells are all in bounds, the exception-aware
overlap check raises nothing and returns exactly the overlap sum of the
total-function embedding. -/
theorem crosses_py_of_valid (size : Nat) (cube : Cube) (coords : Coords)
    (direction : Dir) (length : Nat)
    (hin : ∀ c ∈ segment_cells coords direction length,
      are_coords_invalid size c = false) :
    crosses_occupied_block_py size cube coords direction length =
      some (crosses_occupied_block cube coords direction length) := by
  rw [crosses_occupied_block_py, sum_reads_of_valid size cube _ hin, crosses_eq_sum]

/-! ### Claims -/

/-- C1, counterexample to the claim as stated: `find_chain`
(`Segment.is_valid`) never checks its start coordinate, only the end, so a
successful call may cover an out-of-bounds cell.  With `size = 2`, start
`(-1, 0, 0)`, direction `+x`, length `2`, no remaining lengths and the
all-unoccupied cube, the end coordinate `(0, 0, 0)` passes the bounds
check, the overlap sum is `0` (in the source the negative index is read
with Python wrap-around semantics, from an unoccupied cell), and the call
succeeds; yet the covered cell `(-1, 0, 0)` is out of bounds. -/
theorem claim1_cex :
    find_chain 2 ⟨-1, 0, 0⟩ 2 .px empty_cube [] =
      some (Chain.node ⟨-1, 0, 0⟩ 2 .px none) ∧
    (⟨-1, 0, 0⟩ : Coords) ∈ (Chain.node ⟨-1, 0, 0⟩ 2 .px none).cells ∧
    are_coords_invalid 2 ⟨-1, 0, 0⟩ = true :=
  ⟨rfl, by decide, rfl⟩

/-- C1 (amended): for every chain returned by `solve`, and for every
successful `find_chain` call whose start coordinate is in bounds, the
cells covered by the chain's segments are pairwise distinct and every
covered cell has all three components in `[0, size)`. -/
theorem claim1_theorem :
    (∀ (size : Nat) (segment_lengths : List Nat) (ch : Chain),
        solve size segment_lengths = some ch →
        ch.cells.Nodup ∧ ∀ c ∈ ch.cells, are_coords_invalid size c = false) ∧
    ∀ (size : Nat) (coords : Coords) (length : Nat) (direction : Dir)
      (cube : Cube) (segment_lengths : List Nat) (ch : Chain),
      are_coords_invalid size coords = false →
      find_chain size coords length direction cube segment_lengths = some ch →
      ch.cells.Nodup ∧ ∀ c ∈ ch.cells, are_coords_invalid size c = false := by
  constructor
  · intro size segment_lengths ch h
    obtain ⟨_, _, hnodup, hvalid⟩ := solve_sound size segment_lengths ch h
    exact ⟨hnodup, hvalid⟩
  · intro size coords length direction cube segment_lengths ch hs h
    obtain ⟨_, _, _, hnodup, hvalid, _⟩ :=
      find_chain_sound size segment_lengths coords length direction cube ch hs h
    exact ⟨hnodup, hvalid⟩

/-- C1 witness: the amended theorem applied to the solved instance
`solve 1 [1]`. -/
theorem claim1_witness :
    (Chain.node ⟨0, 0, 0⟩ 1 .px none).cells.Nodup ∧
    ∀ c ∈ (Chain.node ⟨0, 0, 0⟩ 1 .px none).cells, are_coords_invalid 1 c = false :=
  claim1_theorem.1 1 [1] (Chain.node ⟨0, 0, 0⟩ 1 .px none) rfl

/-- C2: a chain returned by `solve` consumes exactly the input lengths
(shown via `solve_sound`), so under the program's documented precondition
that the total volume is a perfect cube — `SIZE` is the rounded cube root
of the sum, exact precisely when the sum is a cube — the chain's total
length equals `size ^ 3`. -/
theorem claim2_theorem (size : Nat) (segment_lengths : List Nat) (ch : Chain)
    (hvol : segment_lengths.sum = size ^ 3)
    (h : solve size segment_lengths = some ch) :
    ch.lengthsList.sum = size ^ 3 := by
  rw [(solve_sound size segment_lengths ch h).1, hvol]

/-- C2 witness: the size-1 puzzle `solve 1 [1]`. -/
theorem claim2_witness : (Chain.node ⟨0, 0, 0⟩ 1 .px none).lengthsList.sum = 1 ^ 3 :=
  claim2_theorem 1 [1] (Chain.node ⟨0, 0, 0⟩ 1 .px none) (by decide) rfl

/-- C3: every chain returned by the search turns at every joint (each
consecutive direction is neither the previous one nor its opposite), and
the candidate enumeration yields, for each current direction, exactly the
four directions off the current axis. -/
theorem claim3_theorem :
    (∀ (size : Nat) (segment_lengths : List Nat) (ch : Chain),
        solve size segment_lengths = some ch → ch.turns_ok) ∧
    ∀ direction : Dir,
      (possible_directions direction).length = 4 ∧
      ∀ d : Dir, d ∈ possible_directions direction ↔
        d ≠ direction ∧ d ≠ direction.opposite := by
  constructor
  · intro size segment_lengths ch h
    exact (solve_sound size segment_lengths ch h).2.1
  · decide

/-- C3 witness: the chain found for the solvable 2-cube scenario
`[2, 1, 1, 1, 1, 1, 1]` turns at every joint. -/
theorem claim3_witness : solved_chain_2.turns_ok :=
  claim3_theorem.1 2 [2, 1, 1, 1, 1, 1, 1] solved_chain_2 rfl

/-- C4, counterexample to the claim as stated: for a start coordinate out
of bounds with the end in bounds, the check does not signal failure (on
the all-unoccupied cube the same call succeeds) and it does examine
occupancy values (on a fully occupied cube the same call fails, so the
outcome depends on the cube). -/
theorem claim4_cex :
    are_coords_invalid 2 ⟨-1, 0, 0⟩ = true ∧
    (find_chain 2 ⟨-1, 0, 0⟩ 2 .px empty_cube []).isSome = true ∧
    find_chain 2 ⟨-1, 0, 0⟩ 2 .px (fun _ => 1) [] = none :=
  ⟨rfl, rfl, rfl⟩

/-- C4 (amended): if the segment's end coordinate (start moved
`length - 1` steps along the direction) is out of bounds, the validity
check signals failure, and it does so uniformly in the occupancy cube —
the result is `none` for every cube, so no occupancy value of the cube can
influence (or be examined for) the outcome.  The start coordinate is not
checked by `is_valid` itself; in invocations reachable from `solve` it is
always in bounds (claim C10). -/
theorem claim4_theorem (size : Nat) (coords : Coords) (length : Nat)
    (direction : Dir) (segment_lengths : List Nat)
    (hend : are_coords_invalid size
      (get_coords coords direction ((length : Int) - 1)) = true) :
    ∀ cube : Cube, find_chain size coords length direction cube segment_lengths = none := by
  intro cube
  rw [find_chain.eq_def]
  simp [hend]

/-- C4 witness: a length-2 segment from the origin leaves the 1-cube, so
the check fails on the all-unoccupied cube. -/
theorem claim4_witness : find_chain 1 ⟨0, 0, 0⟩ 2 .px empty_cube [] = none :=
  claim4_theorem 1 ⟨0, 0, 0⟩ 2 .px [] rfl empty_cube

/-- C5: marking an in-bounds segment yields a cube whose occupied cells
are exactly the union of the input's occupied cells and the segment's
cells, and every cell off the segment keeps its exact value.  The input
cube itself is unchanged: in the source `get_cube_state` only reads
`initial_cube` while building a fresh tuple, and the embedding is
accordingly a pure function of it. -/
theorem claim5_theorem (size : Nat) (cube : Cube) (coords : Coords)
    (direction : Dir) (length : Nat)
    (hin : ∀ c ∈ segment_cells coords direction length,
      are_coords_invalid size c = false) :
    ∀ c : Coords,
      (get_cube_state cube coords direction length c ≠ 0 ↔
        cube c ≠ 0 ∨ c ∈ segment_cells coords direction length) ∧
      (c ∉ segment_cells coords direction length →
        get_cube_state cube coords direction length c = cube c) := by
  intro c
  by_cases hc : c ∈ segment_cells coords direction length <;>
    simp [get_cube_state, segment_cube, hc]

/-- C5 witness: marking the single cell of a length-1 segment at the
origin of the 1-cube. -/
theorem claim5_witness :
    (get_cube_state empty_cube ⟨0, 0, 0⟩ .px 1 ⟨0, 0, 0⟩ ≠ 0 ↔
      empty_cube ⟨0, 0, 0⟩ ≠ 0 ∨ (⟨0, 0, 0⟩ : Coords) ∈ segment_cells ⟨0, 0, 0⟩ .px 1) ∧
    ((⟨0, 0, 0⟩ : Coords) ∉ segment_cells ⟨0, 0, 0⟩ .px 1 →
      get_cube_state empty_cube ⟨0, 0, 0⟩ .px 1 ⟨0, 0, 0⟩ = empty_cube ⟨0, 0, 0⟩) :=
  claim5_theorem 1 empty_cube ⟨0, 0, 0⟩ .px 1 (by decide) ⟨0, 0, 0⟩

/-- C6: at every point of the search reachable from `solve`'s initial
all-unoccupied cube, the number of occupied cells of the occupancy cube
equals the sum of the lengths of the segments placed so far, and that
count never exceeds `size ^ 3`. -/
theorem claim6_theorem (size : Nat) (lengths0 : List Nat) (a : CallArgs)
    (placed : List Nat) (h : Reaches size lengths0 a placed) :
    occupied_count size a.initial_cube = placed.sum ∧
    occupied_count size a.initial_cube ≤ size ^ 3 :=
  ⟨reaches_occupied_count size lengths0 a placed h,
    occupied_count_le size a.initial_cube⟩

/-- C6 witness: the initial call of `solve 2 [1]` at the origin, with
nothing placed. -/
theorem claim6_witness :
    occupied_count 2 empty_cube = List.sum [] ∧ occupied_count 2 empty_cube ≤ 2 ^ 3 :=
  claim6_theorem 2 [1] ⟨⟨0, 0, 0⟩, 1, .px, empty_cube, []⟩ []
    (Reaches.init 0 0 0 (by decide) (by decide) (by decide) .px (by decide) 1 [] rfl)

/-- C7: the search is deterministic.  The embedding of `find_chain` and
`solve` is a pure function of the arguments — the source consults only its
parameters and the fixed, insertion-ordered `DIRECTIONS` table, with no
randomness or ambient state — so two runs on identical inputs have the
same success/failure outcome, the same chain, and the same `solve`
result. -/
theorem claim7_theorem (size : Nat) (coords1 coords2 : Coords)
    (length1 length2 : Nat) (direction1 direction2 : Dir) (cube1 cube2 : Cube)
    (segment_lengths1 segment_lengths2 lengths1 lengths2 : List Nat)
    (hc : coords1 = coords2) (hl : length1 = length2)
    (hd : direction1 = direction2) (hcube : cube1 = cube2)
    (hs : segment_lengths1 = segment_lengths2) (hL : lengths1 = lengths2) :
    ((find_chain size coords1 length1 direction1 cube1 segment_lengths1).isSome =
        (find_chain size coords2 length2 direction2 cube2 segment_lengths2).isSome ∧
      find_chain size coords1 length1 direction1 cube1 segment_lengths1 =
        find_chain size coords2 length2 direction2 cube2 segment_lengths2) ∧
    solve size lengths1 = solve size lengths2 := by
  subst hc hl hd hcube hs hL
  exact ⟨⟨rfl, rfl⟩, rfl⟩

/-- C7 witness: two identical runs at a concrete input. -/
theorem claim7_witness :
    ((find_chain 1 ⟨0, 0, 0⟩ 1 .px empty_cube []).isSome =
        (find_chain 1 ⟨0, 0, 0⟩ 1 .px empty_cube []).isSome ∧
      find_chain 1 ⟨0, 0, 0⟩ 1 .px empty_cube [] =
        find_chain 1 ⟨0, 0, 0⟩ 1 .px empty_cube []) ∧
    solve 1 [1] = solve 1 [1] :=
  claim7_theorem 1 ⟨0, 0, 0⟩ ⟨0, 0, 0⟩ 1 1 .px .px empty_cube empty_cube
    [] [] [1] [1] rfl rfl rfl rfl rfl rfl

/-- C8: with the compiled-in input `(2, 2, 1, 1, 1, 1)` the sum is `8`, so
`SIZE = round(8 ** (1.0 / 3)) = 2`, and the search exhausts every scan
coordinate and direction without finding a chain: two consecutive length-2
segments cannot both fit in the 2-cube after a turn.  `solve` reports no
solution. -/
theorem claim8_theorem : solve 2 [2, 2, 1, 1, 1, 1] = none := rfl

/-- C9, counterexample to the claim as stated (for every input, `solve`
and every `find_chain` invocation complete with a chain or the no-solution
result and no exception): the source has two exception paths inside that
quantifier's range.  On the empty input, `solve` raises an uncaught
`IndexError` at `segment_lengths[0]` before any search (and the empty
tuple even satisfies the perfect-cube precondition, `0 = 0 ^ 3`).  And a
direct validity-check invocation with the over-range start `(2, 0, 0)`,
direction `-x`, length `2` in the 2-cube passes the end-coordinate check
at `(1, 0, 0)` but then evaluates `cube[2][0][0]`, whose first subscript
raises `IndexError` — so that invocation ends in an exception, not in a
success/failure answer. -/
theorem claim9_cex :
    solve_py 2 [] = none ∧
    are_coords_invalid 2 (get_coords ⟨2, 0, 0⟩ .mx ((2 : Int) - 1)) = false ∧
    crosses_occupied_block_py 2 empty_cube ⟨2, 0, 0⟩ .mx 2 = none :=
  ⟨rfl, rfl, rfl⟩

/-- C9 (amended): for every NON-EMPTY input, `solve` terminates, returning
either a chain or the explicit no-solution result; every `find_chain`
invocation REACHABLE FROM `solve` completes in finitely many steps — its
recursion depth is bounded by the number of remaining lengths (any fuel
above that bound already computes the same result) — and raises no
exception: whenever its end-coordinate check passes, the occupancy scan it
performs consists only of successful in-bounds reads, agreeing with the
total-function view of the cube. -/
theorem claim9_theorem :
    (∀ (size : Nat) (l : Nat) (rest : List Nat),
        solve size (l :: rest) = none ∨
        ∃ ch : Chain, solve size (l :: rest) = some ch) ∧
    (∀ (fuel size : Nat) (coords : Coords) (length : Nat) (direction : Dir)
        (cube : Cube) (segment_lengths : List Nat),
        segment_lengths.length < fuel →
        find_chain_fuel fuel size coords length direction cube segment_lengths =
          find_chain size coords length direction cube segment_lengths) ∧
    ∀ (size : Nat) (lengths0 : List Nat) (a : CallArgs) (placed : List Nat),
      Reaches size lengths0 a placed →
      are_coords_invalid size a.end_coords = false →
      crosses_occupied_block_py size a.initial_cube a.coords a.direction a.length =
        some (crosses_occupied_block a.initial_cube a.coords a.direction a.length) := by
  refine ⟨?_, ?_, ?_⟩
  · intro size l rest
    cases h : solve size (l :: rest) with
    | none => exact Or.inl rfl
    | some ch => exact Or.inr ⟨ch, rfl⟩
  · intro fuel size coords length direction cube segment_lengths h
    exact find_chain_fuel_spec fuel size coords length direction cube segment_lengths h
  · intro size lengths0 a placed h hend
    exact crosses_py_of_valid size a.initial_cube a.coords a.direction a.length
      (segment_cells_valid size a.coords a.direction a.length
        (reaches_start_valid size lengths0 a placed h) hend)

/-- C9 witness: the initial call of `solve 2 [1]` at the origin performs
only successful in-bounds occupancy reads. -/
theorem claim9_witness :
    crosses_occupied_block_py 2 empty_cube ⟨0, 0, 0⟩ .px 1 =
      some (crosses_occupied_block empty_cube ⟨0, 0, 0⟩ .px 1) :=
  claim9_theorem.2.2 2 [1] ⟨⟨0, 0, 0⟩, 1, .px, empty_cube, []⟩ []
    (Reaches.init 0 0 0 (by decide) (by decide) (by decide) .px (by decide) 1 [] rfl)
    rfl

/-- C10: every validity-check invocation reachable from `solve` has an
in-bounds start coordinate (the scan enumerates only in-bounds starts, and
the recursion checks each next start before recursing), and therefore,
whenever its end-coordinate bounds check passes, every cell index the
occupancy lookup uses lies in `[0, size)` on all three components — the
lookup never touches a cell outside the cube. -/
theorem claim10_theorem (size : Nat) (lengths0 : List Nat) (a : CallArgs)
    (placed : List Nat) (h : Reaches size lengths0 a placed) :
    are_coords_invalid size a.coords = false ∧
    (are_coords_invalid size a.end_coords = false →
      ∀ c ∈ segment_cells a.coords a.direction a.length,
        are_coords_invalid size c = false) := by
  refine ⟨reaches_start_valid size lengths0 a placed h, fun hend => ?_⟩
  exact segment_cells_valid size a.coords a.direction a.length
    (reaches_start_valid size lengths0 a placed h) hend

/-- C10 witness: the initial call of `solve 2 [1]` at the origin. -/
theorem claim10_witness :
    are_coords_invalid 2 ⟨0, 0, 0⟩ = false ∧
    (are_coords_invalid 2 (get_coords ⟨0, 0, 0⟩ .px ((1 : Int) - 1)) = false →
      ∀ c ∈ segment_cells ⟨0, 0, 0⟩ .px 1, are_coords_invalid 2 c = false) :=
  claim10_theorem 2 [1] ⟨⟨0, 0, 0⟩, 1, .px, empty_cube, []⟩ []
    (Reaches.init 0 0 0 (by decide) (by decide) (by decide) .px (by decide) 1 [] rfl)
